import Mathlib

/-!
Shallow embedding of the Badugi CPU decision engine
(`src/model/Card.ts`, `src/model/HandEvaluator.ts`, `src/model/GameState.ts`,
`src/model/CpuStrategy.ts`) together with theorems settling the
specification claims about it.

Modelling conventions:
* JS numbers holding chip amounts, pot sizes and indices are modelled as
  `Int`; card ranks and counters as `Nat`; the fractional profile factors
  and the probability computations as `Rat` (exact rational arithmetic;
  for the magnitudes appearing in the strategy tables the IEEE-double
  comparisons of the source and the rational comparisons agree).
* `Math.random()` is made explicit: every decision function that consults
  it receives the sampled value as an extra argument `rnd`.
* Functions that `throw` in the source return `Option` here, `none`
  standing for the thrown error.
-/

namespace PjBadugi

/-- The four suits of `Card.ts` (`'s' | 'h' | 'd' | 'c'`). -/
inductive Suit : Type
| spades
| hearts
| diamonds
| clubs
deriving DecidableEq

/-- `Card.ts`: an immutable (suit, rank) pair; ranks are `1` (ace) .. `13` (king). -/
structure Card : Type where
  suit : Suit
  rank : Nat
deriving DecidableEq

/-- `HandEvaluator.ts` `HandRank`: a numeric hand-type tag (`Badugi = 4`,
`ThreeCard = 3`, `TwoCard = 2`, `OneCard = 1`) plus the cards realizing it. -/
structure HandRank : Type where
  type : Nat
  cards : List Card
deriving DecidableEq

/-- JS `array.sort((a, b) => b - a)` on rank lists: sort descending. -/
def sortRanksDesc (l : List Nat) : List Nat :=
  List.insertionSort (fun a b => b ≤ a) l

/-- JS `array.sort((a, b) => a - b)` on rank lists: sort ascending. -/
def sortRanksAsc (l : List Nat) : List Nat :=
  List.insertionSort (fun a b => a ≤ b) l

/-- The rank-comparison loop of `HandRank.compareTo` (lines 41-45): walk the two
descending rank lists, and at the first position where they differ return
`other - this` (the lower rank wins).  The source only reaches this loop with
two lists of the same length; the catch-all `0` for mismatched lengths is junk
(the source would produce `NaN` there). -/
def cmpRanks : List Nat → List Nat → Int
  | a :: as, b :: bs => if a ≠ b then (b : Int) - (a : Int) else cmpRanks as bs
  | _, _ => 0

/-- `HandRank.compareTo`: positive when `this` wins.  A higher type
(more cards) wins outright; equal types are compared by descending rank
lists, lower rank winning at the first difference. -/
def HandRank.compareTo (a b : HandRank) : Int :=
  if a.type ≠ b.type then (a.type : Int) - (b.type : Int)
  else cmpRanks (sortRanksDesc (a.cards.map Card.rank)) (sortRanksDesc (b.cards.map Card.rank))

/-- Loop body of `HandEvaluator.isValidBadugi`: scan the cards, tracking the
suits and ranks already seen, and fail on the first repeat. -/
def validAux : List Card → List Suit → List Nat → Bool
  | [], _, _ => true
  | c :: cs, ss, rs =>
    if c.suit ∈ ss then false
    else if c.rank ∈ rs then false
    else validAux cs (c.suit :: ss) (c.rank :: rs)

/-- `HandEvaluator.isValidBadugi`: no two cards share a suit, no two share a rank. -/
def isValidBadugi (cards : List Card) : Bool :=
  validAux cards [] []

/-- The subset of `cards` selected by the bit mask `i`
(`if ((i >> j) & 1) subset.push(cards[j])`, bits tested from `j = 0` up). -/
def maskSubset : List Card → Nat → List Card
  | [], _ => []
  | c :: cs, i => if i % 2 = 1 then c :: maskSubset cs (i / 2) else maskSubset cs (i / 2)

/-- The subset enumeration of `HandEvaluator.evaluate`
(`for (let i = 1; i < (1 << n); i++)`): all subsets with a nonzero mask. -/
def handsubsets (cards : List Card) : List (List Card) :=
  (List.range' 1 (2 ^ cards.length - 1)).map (maskSubset cards)

/-- The best-subset fold of `HandEvaluator.evaluate` (lines 81-90): keep the
current best, replacing it when a later subset compares strictly better. -/
def bestLoop : List (List Card) → Option HandRank → Option HandRank
  | [], best => best
  | s :: rest, best =>
    match best with
    | none => bestLoop rest (some (HandRank.mk s.length s))
    | some b =>
      if (HandRank.mk s.length s).compareTo b > 0 then bestLoop rest (some (HandRank.mk s.length s))
      else bestLoop rest (some b)

/-- The fallback scan of `HandEvaluator.evaluate` (lines 95-98): the input card
of lowest rank, starting from `cards[0]`. -/
def lowestCard : List Card → Card → Card
  | [], best => best
  | c :: cs, best => lowestCard cs (if c.rank < best.rank then c else best)

/-- `HandEvaluator.evaluate`: enumerate every nonempty subset of the input,
keep the valid badugi subsets, and fold for the best one.  The fallback
branch (unreachable for nonempty input, and a crash in the source for empty
input) returns the lowest single card, or a junk empty one-card hand. -/
def evaluate (cards : List Card) : HandRank :=
  match bestLoop ((handsubsets cards).filter isValidBadugi) none with
  | some best => best
  | none =>
    match cards with
    | [] => HandRank.mk 1 []
    | c :: _ => HandRank.mk 1 [lowestCard cards c]

/-- `HandEvaluator.ts` `BreakabilityScore`. -/
structure BreakabilityScore : Type where
  score : Int
  breakableCard : Option Card
  improveRanks : List Nat
deriving DecidableEq

/-- Head of the rank-descending stable sort of `cards`
(`sortedCards[0] ?? null` in `calculateBreakability`): the first card of
maximal rank. -/
def maxRankCard : List Card → Option Card
  | [] => none
  | c :: cs =>
    match maxRankCard cs with
    | none => some c
    | some d => if d.rank > c.rank then some d else some c

/-- `HandEvaluator.calculateBreakability`: zero for non-badugi ranks; otherwise
sum `14 - rank` over each rank `1..13` missing from the hand, clamp the score
into `[0, 91]`, and report the missing ranks and the highest card. -/
def calculateBreakability (_hand : List Card) (badugiRank : HandRank) : BreakabilityScore :=
  if badugiRank.type ≠ 4 then ⟨0, none, []⟩
  else
    let usedRanks := badugiRank.cards.map Card.rank
    let improveRanks := (List.range' 1 13).filter (fun r => r ∉ usedRanks)
    let rawScore : Int := (improveRanks.map (fun r : Nat => (14 : Int) - (r : Int))).sum
    ⟨min 91 (max 0 rawScore), maxRankCard badugiRank.cards, improveRanks⟩

/-- Sum of the consecutive gaps of a rank list (`totalGap` in `isSmooth`). -/
def gapsSum : List Nat → Int
  | a :: b :: rest => ((b : Int) - (a : Int)) + gapsSum (b :: rest)
  | _ => 0

/-- `HandEvaluator.isSmooth`: at least two cards, and the average gap of the
ascending rank list is at most 3. -/
def isSmooth (handRank : HandRank) : Bool :=
  if handRank.cards.length < 2 then false
  else
    let sortedRanks := sortRanksAsc (handRank.cards.map Card.rank)
    decide ((gapsSum sortedRanks : ℚ) / ((sortedRanks.length : ℚ) - 1) ≤ 3)

/-- `GameState.ts` `Player`: the per-seat record read by the strategy. -/
structure Player : Type where
  id : String
  name : String
  isCpu : Bool
  chips : Int
  hand : List Card
  currentRoundBet : Int
  hasFolded : Bool
  isAllIn : Bool
  lastAction : Option String
  drawHistory : List Nat
deriving DecidableEq

/-- The fields of `GameState.ts` `GameState` that the strategy reads.
`phase` carries the numeric `GamePhase` enum: `Betting1 = 0`, `Draw1 = 1`,
`Betting2 = 2`, `Draw2 = 3`, `Betting3 = 4`, `Draw3 = 5`, `Betting4 = 6`,
`Showdown = 7`, `GameOver = 8`. -/
structure GameState : Type where
  players : List Player
  pot : Int
  currentBet : Int
  dealerIndex : Int
  currentPlayerIndex : Nat
  phase : Nat
  betsInRound : Nat
deriving DecidableEq

/-- `GameState.getCurrentPlayer`: `players[currentPlayerIndex]`; `none` models
the out-of-bounds access that would crash the source. -/
def GameState.getCurrentPlayer? (gs : GameState) : Option Player :=
  gs.players.get? gs.currentPlayerIndex

/-- The action labels returned by `CpuStrategy` (`'Fold' | 'Call' | 'Raise' | 'Draw'`). -/
inductive Action : Type
| Fold
| Call
| Raise
| Draw
deriving DecidableEq

/-- `CpuStrategy.ts` `StrategyProfile`: per-CPU personality multipliers. -/
structure StrategyProfile : Type where
  id : String
  aggressionFactor : ℚ
  bluffFrequency : ℚ
  tightnessFactor : ℚ
deriving DecidableEq

/-- The six fixed profiles of `CPU_PROFILES`. -/
def CPU_PROFILES : List StrategyProfile :=
  [⟨"CPU 1", 9/10, 15/100, 11/10⟩,
   ⟨"CPU 2", 11/10, 20/100, 9/10⟩,
   ⟨"CPU 3", 1, 17/100, 1⟩,
   ⟨"CPU 4", 8/10, 12/100, 12/10⟩,
   ⟨"CPU 5", 12/10, 22/100, 8/10⟩,
   ⟨"CPU 6", 1, 18/100, 1⟩]

/-- Decimal value of a digit string, scanned left to right
(the behaviour of `parseInt` on the digits-only string). -/
def digitsVal (acc : Nat) : List Char → Nat
  | [] => acc
  | c :: cs => digitsVal (acc * 10 + (c.toNat - 48)) cs

/-- `getStrategyProfile`: strip the non-digits from `player.id`, parse the rest
(`parseInt(...) || 1`: an empty digit string parses to `NaN`, and both `NaN`
and `0` are falsy, so they become `1`), and index `CPU_PROFILES` modulo six. -/
def getStrategyProfile (player : Player) : StrategyProfile :=
  let ds := player.id.data.filter Char.isDigit
  let parsed := digitsVal 0 ds
  let cpuNum := if ds.isEmpty then 1 else if parsed = 0 then 1 else parsed
  (CPU_PROFILES.getD ((cpuNum - 1) % CPU_PROFILES.length) ⟨"CPU 1", 9/10, 15/100, 11/10⟩)

/-- The position categories of `CpuStrategy.ts`. -/
inductive PositionCategory : Type
| early
| middle
| late
deriving DecidableEq

/-- The active-player filter of `getPositionCategory`
(`!p.hasFolded && (p.chips > 0 || p.isAllIn)`). -/
def isActivePlayer (p : Player) : Bool :=
  !p.hasFolded && (decide (p.chips > 0) || p.isAllIn)

/-- JS `Array.prototype.indexOf`: first index of the player, `-1` when absent.
The source compares by object reference; the embedding compares structurally,
which agrees whenever the list holds no duplicate player record. -/
def jsIndexOf (players : List Player) (p : Player) : Int :=
  let i := players.indexOf p
  if i = players.length then -1 else (i : Int)

/-- `getPositionCategory` (lines 65-78): position of `player` relative to the
dealer, reduced modulo the total seat count (`gameState.players.length`),
with the early/late bounds computed from the active-player count.
`Int.tmod` is JS `%` (truncated remainder). -/
def getPositionCategory (gameState : GameState) (player : Player) : PositionCategory :=
  let activeCount := (gameState.players.filter isActivePlayer).length
  let playerIndex := jsIndexOf gameState.players player
  let n : Int := gameState.players.length
  let relativePosition := (playerIndex - gameState.dealerIndex + n).tmod n
  let earlyThreshold := (activeCount + 2) / 3
  let lateThreshold := activeCount * 2 / 3
  if relativePosition < (earlyThreshold : Int) then .early
  else if relativePosition ≥ (lateThreshold : Int) then .late
  else .middle

/-- `getHighestRank`: maximum card rank of the hand, starting from 0. -/
def getHighestRank (handRank : HandRank) : Nat :=
  handRank.cards.foldl (fun mx c => if c.rank > mx then c.rank else mx) 0

/-- The baseline actions of the opening-range table. -/
inductive BaselineAction : Type
| fold
| call
| raise
deriving DecidableEq

/-- `CpuStrategy.ts` `OpeningCriteria`.  `mustBeSmooth` is optional in the
source; an absent field is falsy, modelled as `false`. -/
structure OpeningCriteria : Type where
  maxHighCard : Nat
  mustBeSmooth : Bool
  action : BaselineAction
deriving DecidableEq

/-- The `OPENING_RANGES` table, keyed by position category and numeric hand
type; `none` for a tag outside `1..4` (the `if (!criteria) return 'Fold'` case). -/
def OPENING_RANGES (pos : PositionCategory) (t : Nat) : Option OpeningCriteria :=
  match pos, t with
  | .early, 4 => some ⟨8, false, .raise⟩
  | .early, 3 => some ⟨6, true, .call⟩
  | .early, 2 => some ⟨1, false, .fold⟩
  | .early, 1 => some ⟨1, false, .fold⟩
  | .middle, 4 => some ⟨9, false, .raise⟩
  | .middle, 3 => some ⟨7, true, .call⟩
  | .middle, 2 => some ⟨1, false, .fold⟩
  | .middle, 1 => some ⟨1, false, .fold⟩
  | .late, 4 => some ⟨12, false, .raise⟩
  | .late, 3 => some ⟨8, false, .call⟩
  | .late, 2 => some ⟨3, false, .call⟩
  | .late, 1 => some ⟨1, false, .fold⟩
  | _, _ => none

/-- The opening-threshold comparison of `decidePreDrawAction` line 125:
the hand passes unless its highest rank exceeds
`criteria.maxHighCard * profile.tightnessFactor`. -/
def passesThresholdCheck (maxHighCard : Nat) (tightnessFactor : ℚ) (highCard : Nat) : Bool :=
  !(decide ((highCard : ℚ) > (maxHighCard : ℚ) * tightnessFactor))

/-- `decidePreDrawAction` (lines 113-139).  `rnd` is the `Math.random()`
sample consumed on line 133. -/
def decidePreDrawAction (gameState : GameState) (_cpu : Player) (handRank : HandRank)
    (position : PositionCategory) (profile : StrategyProfile) (rnd : ℚ) : Action :=
  match OPENING_RANGES position handRank.type with
  | none => .Fold
  | some criteria =>
    if !passesThresholdCheck criteria.maxHighCard profile.tightnessFactor (getHighestRank handRank) then
      .Fold
    else if criteria.mustBeSmooth && !isSmooth handRank then .Fold
    else if criteria.action = .raise ∧ rnd < profile.aggressionFactor then
      (if gameState.betsInRound < 5 then .Raise else .Call)
    else if criteria.action = .fold then .Fold
    else .Call

/-- `opp.drawHistory[opp.drawHistory.length - 1]`: the last recorded entry.
`none` models the `undefined` read from an empty array; every numeric
comparison against `undefined` is false in JS. -/
def lastDrawOf (p : Player) : Option Nat :=
  p.drawHistory.getLast?

/-- `shouldSnow` (lines 179-200): only three-card hands, only from the third
betting round on (`GamePhase.Betting3 = 4`), only when every remaining
opponent drew in its latest draw entry; then compare the deterministic hash
of `pot + chips + currentBet` against the bluff frequency. -/
def shouldSnow (gameState : GameState) (cpu : Player) (handRank : HandRank)
    (profile : StrategyProfile) : Bool :=
  if handRank.type ≠ 3 then false
  else if gameState.phase < 4 then false
  else
    let opponents := gameState.players.filter (fun p => p.id ≠ cpu.id ∧ !p.hasFolded)
    let mostRecentDraw := opponents.all (fun opp =>
      match lastDrawOf opp with
      | some d => decide (d > 0)
      | none => false)
    if !mostRecentDraw then false
    else
      let seed : Int := gameState.pot + cpu.chips + gameState.currentBet
      let hash : ℚ := (((seed * 2654435761).tmod (2 ^ 32) : Int) : ℚ) / ((2 : ℚ) ^ 32)
      decide (hash < profile.bluffFrequency)

/-- `shouldBreakBadugi` (lines 202-220): only badugis above eight-high with
breakability at least 40, and at least two remaining opponents whose latest
draw entry signals strength (drew 0 or 1). -/
def shouldBreakBadugi (gameState : GameState) (cpu : Player) (handRank : HandRank)
    (breakability : BreakabilityScore) : Bool :=
  if getHighestRank handRank ≤ 8 then false
  else if breakability.score < 40 then false
  else
    let opponents := gameState.players.filter (fun p => p.id ≠ cpu.id ∧ !p.hasFolded)
    let opponentsStrongCount := (opponents.filter (fun opp =>
      match lastDrawOf opp with
      | some d => d = 0 ∨ d = 1
      | none => false)).length
    opponentsStrongCount ≥ 2

/-- `checkPotOdds` (lines 222-233).  Rational division stands in for IEEE
division; the `betToCall = 0` guard of the source is kept, so the divisions
are by nonzero values in every state with fewer than 13 active players. -/
def checkPotOdds (gameState : GameState) (cpu : Player) (outs : Nat) : Bool :=
  let betToCall : Int := gameState.currentBet - cpu.currentRoundBet
  if betToCall = 0 then true
  else
    let potOdds : ℚ := (gameState.pot : ℚ) / (betToCall : ℚ)
    let activePlayers := (gameState.players.filter (fun p => !p.hasFolded)).length
    let cardsRemaining : Int := 52 - 4 * (activePlayers : Int)
    let winProbability : ℚ := (outs : ℚ) / (cardsRemaining : ℚ)
    decide (winProbability ≥ 1 / (potOdds + 1))

/-- `estimateOuts` (lines 235-239). -/
def estimateOuts (handRank : HandRank) : Nat :=
  if handRank.type = 3 then 10
  else if handRank.type = 2 then 20
  else 30

/-- `decidePostDrawAction` (lines 141-177).  `rnd` is the `Math.random()`
sample consumed on line 156. -/
def decidePostDrawAction (gameState : GameState) (cpu : Player) (handRank : HandRank)
    (_position : PositionCategory) (profile : StrategyProfile) (rnd : ℚ) : Action :=
  if shouldSnow gameState cpu handRank profile then .Call
  else if handRank.type = 4 then
    if getHighestRank handRank ≤ 8 then
      (if gameState.betsInRound < 5 ∧ rnd < profile.aggressionFactor then .Raise else .Call)
    else
      if shouldBreakBadugi gameState cpu handRank (calculateBreakability cpu.hand handRank) then .Call
      else .Call
  else if handRank.type < 4 then
    (if checkPotOdds gameState cpu (estimateOuts handRank) then .Call else .Fold)
  else .Call

/-- `CpuStrategy.decideAction` (lines 93-111): route by phase.  `none` models
the `throw` for a non-CPU current player (and the crash on a bad index).
The source binds the profile, the position category and the hand rank before
branching; they are inlined here at their use sites, which is observationally
identical because all three are pure. -/
def decideAction (gameState : GameState) (rnd : ℚ) : Option Action :=
  match gameState.getCurrentPlayer? with
  | none => none
  | some cpu =>
    if !cpu.isCpu then none
    else if gameState.phase = 1 ∨ gameState.phase = 3 ∨ gameState.phase = 5 then some .Draw
    else if gameState.phase = 0 then
      some (decidePreDrawAction gameState cpu (evaluate cpu.hand)
        (getPositionCategory gameState cpu) (getStrategyProfile cpu) rnd)
    else
      some (decidePostDrawAction gameState cpu (evaluate cpu.hand)
        (getPositionCategory gameState cpu) (getStrategyProfile cpu) rnd)

/-- `CpuStrategy.decideDiscards` (lines 241-245): discard every card outside
the best valid subset found by the evaluator.  The source's
`bestCards.includes(c)` compares object references; the embedding compares
structurally, which agrees whenever the hand holds no duplicate card. -/
def decideDiscards (hand : List Card) : List Card :=
  let bestCards := (evaluate hand).cards
  hand.filter (fun c => !(bestCards.contains c))

/-- The position formula exactly as the specification claim words it, for
comparison with `getPositionCategory`: the relative offset is reduced modulo
the **active**-player count (`relative = (seatIndex − dealerIndex +
activePlayerCount) mod activePlayerCount`), with the same early/late bounds. -/
def specPositionCategory (seatIndex dealerIndex : Int) (activePlayerCount : Nat) :
    PositionCategory :=
  let relative := (seatIndex - dealerIndex + activePlayerCount).tmod activePlayerCount
  let earlyBound := (activePlayerCount + 2) / 3
  let lateBound := activePlayerCount * 2 / 3
  if relative < (earlyBound : Int) then .early
  else if relative ≥ (lateBound : Int) then .late
  else .middle

/-- The position computation the code actually performs, abstracted over its
four numeric inputs: the relative offset is reduced modulo the **total** seat
count, while the early/late bounds come from the active-player count. -/
def codePositionCategory (seatIndex dealerIndex : Int) (totalCount activeCount : Nat) :
    PositionCategory :=
  let relative := (seatIndex - dealerIndex + totalCount).tmod totalCount
  let earlyBound := (activeCount + 2) / 3
  let lateBound := activeCount * 2 / 3
  if relative < (earlyBound : Int) then .early
  else if relative ≥ (lateBound : Int) then .late
  else .middle

/-! ### Concrete seven-player scenario states (mirroring the repository's
`setup7PlayerGame` test helper) -/

/-- A seat record with the stack, bet and flag defaults of a fresh hand. -/
def mkSeat (id nm : String) (cpu : Bool) (hand : List Card) (dh : List Nat) : Player :=
  ⟨id, nm, cpu, 30000, hand, 0, false, false, none, dh⟩

/-- The default three-card filler hand dealt to seat `i` by the test helper. -/
def fillerHand (i : Nat) : List Card :=
  [⟨Suit.spades, 5 + i⟩, ⟨Suit.hearts, 6 + i⟩, ⟨Suit.diamonds, 7 + i⟩]

/-- Seven seats: the human dealer `p1` and six CPUs, nobody folded,
all draw histories zero. -/
def baseSeats : List Player :=
  [mkSeat "p1" "You" false (fillerHand 0) [0, 0, 0],
   mkSeat "cpu1" "CPU 1" true (fillerHand 1) [0, 0, 0],
   mkSeat "cpu2" "CPU 2" true (fillerHand 2) [0, 0, 0],
   mkSeat "cpu3" "CPU 3" true (fillerHand 3) [0, 0, 0],
   mkSeat "cpu4" "CPU 4" true (fillerHand 4) [0, 0, 0],
   mkSeat "cpu5" "CPU 5" true (fillerHand 5) [0, 0, 0],
   mkSeat "cpu6" "CPU 6" true (fillerHand 6) [0, 0, 0]]

/-- A-2-3-5 with four distinct suits: a premium badugi. -/
def premiumBadugi : List Card :=
  [⟨Suit.spades, 1⟩, ⟨Suit.hearts, 2⟩, ⟨Suit.diamonds, 3⟩, ⟨Suit.clubs, 5⟩]

/-- CPU 1 holding the premium badugi. -/
def probeCpu : Player :=
  mkSeat "cpu1" "CPU 1" true premiumBadugi [0, 0, 0]

/-- Pre-draw state: CPU 1 to act with a premium badugi, no raises yet. -/
def randProbeState : GameState :=
  ⟨baseSeats.set 1 probeCpu, 0, 0, 0, 1, 0, 0⟩

/-- The same table in the second betting round (post-draw). -/
def randProbeStatePost : GameState :=
  { randProbeState with phase := 2 }

/-- The post-draw premium-badugi state with the raise cap already reached. -/
def capProbeState : GameState :=
  { randProbeStatePost with betsInRound := 5 }

/-- CPU 1 holding a three-card hand, having stood pat in the first draw. -/
def autoBetCpu : Player :=
  mkSeat "cpu1" "CPU 1" true [⟨Suit.spades, 1⟩, ⟨Suit.hearts, 2⟩, ⟨Suit.diamonds, 3⟩] [0, 0, 0]

/-- Second betting round: CPU 1 holds a three-card hand and drew no cards in
the first draw while every live opponent drew at least one; pot 10 against a
bet of 20. -/
def autoBetProbeState : GameState :=
  ⟨[mkSeat "p1" "You" false (fillerHand 0) [2, 0, 0],
    autoBetCpu,
    mkSeat "cpu2" "CPU 2" true (fillerHand 2) [1, 0, 0],
    mkSeat "cpu3" "CPU 3" true (fillerHand 3) [2, 0, 0],
    mkSeat "cpu4" "CPU 4" true (fillerHand 4) [3, 0, 0],
    mkSeat "cpu5" "CPU 5" true (fillerHand 5) [1, 0, 0],
    mkSeat "cpu6" "CPU 6" true (fillerHand 6) [2, 0, 0]],
   10, 20, 0, 1, 2, 0⟩

/-- 9-T-J-Q with four distinct suits: a rough queen-high badugi, the classic
breaking candidate. -/
def roughBadugi : List Card :=
  [⟨Suit.spades, 9⟩, ⟨Suit.hearts, 10⟩, ⟨Suit.diamonds, 11⟩, ⟨Suit.clubs, 12⟩]

/-- The seat holding the rough badugi. -/
def roughSeat : Player :=
  mkSeat "cpu3" "CPU 3" true roughBadugi [0, 0, 0]

/-- Second betting round: CPU 3 to act with the rough badugi; every opponent
still shows a strength signal (draw history all zeros). -/
def breakProbeState : GameState :=
  ⟨baseSeats.set 3 roughSeat, 0, 0, 0, 3, 2, 0⟩

/-- A-2-4-9 with four distinct suits: a nine-high badugi, just outside the
early-position eight-high opening threshold. -/
def nineHighBadugi : List Card :=
  [⟨Suit.spades, 1⟩, ⟨Suit.hearts, 2⟩, ⟨Suit.diamonds, 4⟩, ⟨Suit.clubs, 9⟩]

/-- T-J-Q-K with four distinct suits: a king-high badugi, outside every
opening threshold at tightness 1. -/
def kingHighBadugi : List Card :=
  [⟨Suit.spades, 10⟩, ⟨Suit.hearts, 11⟩, ⟨Suit.diamonds, 12⟩, ⟨Suit.clubs, 13⟩]

/-- Seven players with seats 1, 2 and 3 folded: the acting seat 4 is at
relative offset 4 of 7 seats while only 4 players remain active. -/
def foldedTableState : GameState :=
  ⟨[mkSeat "p1" "You" false (fillerHand 0) [0, 0, 0],
    { mkSeat "cpu1" "CPU 1" true (fillerHand 1) [0, 0, 0] with hasFolded := true },
    { mkSeat "cpu2" "CPU 2" true (fillerHand 2) [0, 0, 0] with hasFolded := true },
    { mkSeat "cpu3" "CPU 3" true (fillerHand 3) [0, 0, 0] with hasFolded := true },
    mkSeat "cpu4" "CPU 4" true (fillerHand 4) [0, 0, 0],
    mkSeat "cpu5" "CPU 5" true (fillerHand 5) [0, 0, 0],
    mkSeat "cpu6" "CPU 6" true (fillerHand 6) [0, 0, 0]],
   0, 0, 0, 4, 0, 0⟩

/-- The acting seat of `foldedTableState`. -/
def foldedTableActor : Player :=
  mkSeat "cpu4" "CPU 4" true (fillerHand 4) [0, 0, 0]

/-! ### Sorting and comparison lemmas -/

instance : IsTotal Nat (fun a b => b ≤ a) := ⟨fun a b => le_total b a⟩

instance : IsTrans Nat (fun a b => b ≤ a) := ⟨fun _ _ _ hab hbc => le_trans hbc hab⟩

instance : IsAntisymm Nat (fun a b => b ≤ a) := ⟨fun _ _ h1 h2 => le_antisymm h2 h1⟩

theorem sortRanksDesc_perm (l : List Nat) : List.Perm (sortRanksDesc l) l :=
  List.perm_insertionSort _ l

theorem sortRanksDesc_sorted (l : List Nat) : List.Sorted (fun a b => b ≤ a) (sortRanksDesc l) :=
  List.sorted_insertionSort _ l

theorem sortRanksDesc_congr {l₁ l₂ : List Nat} (h : List.Perm l₁ l₂) :
    sortRanksDesc l₁ = sortRanksDesc l₂ :=
  List.eq_of_perm_of_sorted
    ((sortRanksDesc_perm l₁).trans (h.trans (sortRanksDesc_perm l₂).symm))
    (sortRanksDesc_sorted l₁) (sortRanksDesc_sorted l₂)

theorem sortRanksDesc_length (l : List Nat) : (sortRanksDesc l).length = l.length :=
  (sortRanksDesc_perm l).length_eq

theorem cmpRanks_cons (a b : Nat) (as bs : List Nat) :
    cmpRanks (a :: as) (b :: bs) = if a ≠ b then ((b : Int) - (a : Int)) else cmpRanks as bs := rfl

theorem cmpRanks_self : ∀ l : List Nat, cmpRanks l l = 0
  | [] => rfl
  | a :: as => by
    rw [cmpRanks_cons]
    simp [cmpRanks_self as]

theorem cmpRanks_cons_pos (a b : Nat) (as bs : List Nat) :
    0 < cmpRanks (a :: as) (b :: bs) ↔ (a < b ∨ (a = b ∧ 0 < cmpRanks as bs)) := by
  rw [cmpRanks_cons]
  by_cases h : a = b
  · subst h
    simp
  · rw [if_pos h]
    constructor
    · intro hpos
      exact Or.inl (by omega)
    · intro hor
      rcases hor with hlt | ⟨heq, _⟩
      · omega
      · exact absurd heq h

theorem cmpRanks_trans : ∀ {x y z : List Nat}, x.length = y.length → y.length = z.length →
    0 < cmpRanks x y → 0 < cmpRanks y z → 0 < cmpRanks x z := by
  intro x
  induction x with
  | nil =>
    intro y z hxy _ hpos _
    cases y with
    | nil => simp [cmpRanks] at hpos
    | cons b bs => simp at hxy
  | cons a as ih =>
    intro y z hxy hyz hxyPos hyzPos
    cases y with
    | nil => simp at hxy
    | cons b bs =>
      cases z with
      | nil => simp at hyz
      | cons c cs =>
        rw [cmpRanks_cons_pos] at hxyPos hyzPos ⊢
        simp only [List.length_cons, Nat.add_right_cancel_iff] at hxy hyz
        rcases hxyPos with hab | ⟨rfl, hab⟩
        · rcases hyzPos with hbc | ⟨rfl, _⟩
          · exact Or.inl (hab.trans hbc)
          · exact Or.inl hab
        · rcases hyzPos with hbc | ⟨rfl, hbc⟩
          · exact Or.inl hbc
          · exact Or.inr ⟨rfl, ih hxy hyz hab hbc⟩

theorem compareTo_of_type_eq (a b : HandRank) (h : a.type = b.type) :
    a.compareTo b =
      cmpRanks (sortRanksDesc (a.cards.map Card.rank)) (sortRanksDesc (b.cards.map Card.rank)) := by
  unfold HandRank.compareTo
  simp [h]

/-- **C7.** `compareTo` behaves as a total order on classifications: a larger
cardinality (type tag) always wins; for equal cardinality the descending rank
sequences are compared, the lower rank winning at the first difference (stated
as the recursive characterisation of `cmpRanks`); the strict order is
transitive across three equal-cardinality classifications; and two
equal-cardinality classifications with identical rank multisets compare as an
exact tie. -/
theorem C7_compareTo_total_order :
    (∀ a b : HandRank, b.type < a.type → 0 < a.compareTo b) ∧
    (∀ (r s : Nat) (rs ss : List Nat),
      0 < cmpRanks (r :: rs) (s :: ss) ↔ (r < s ∨ (r = s ∧ 0 < cmpRanks rs ss))) ∧
    (∀ a b c : HandRank, a.type = b.type → b.type = c.type →
      a.cards.length = b.cards.length → b.cards.length = c.cards.length →
      0 < a.compareTo b → 0 < b.compareTo c → 0 < a.compareTo c) ∧
    (∀ a b : HandRank, a.type = b.type →
      List.Perm (a.cards.map Card.rank) (b.cards.map Card.rank) → a.compareTo b = 0) := by
  refine ⟨?_, ?_, ?_, ?_⟩
  · intro a b h
    unfold HandRank.compareTo
    have hne : a.type ≠ b.type := by omega
    simp only [hne, ne_eq, not_false_eq_true, if_true]
    omega
  · exact cmpRanks_cons_pos
  · intro a b c hab hbc lab lbc h1 h2
    rw [compareTo_of_type_eq a b hab] at h1
    rw [compareTo_of_type_eq b c hbc] at h2
    rw [compareTo_of_type_eq a c (hab.trans hbc)]
    have l1 : (sortRanksDesc (a.cards.map Card.rank)).length =
        (sortRanksDesc (b.cards.map Card.rank)).length := by
      simp [sortRanksDesc_length, lab]
    have l2 : (sortRanksDesc (b.cards.map Card.rank)).length =
        (sortRanksDesc (c.cards.map Card.rank)).length := by
      simp [sortRanksDesc_length, lbc]
    exact cmpRanks_trans l1 l2 h1 h2
  · intro a b hty hperm
    rw [compareTo_of_type_eq a b hty, sortRanksDesc_congr hperm]
    exact cmpRanks_self _

/-- Witness for C7: instantiating the transitivity conjunct on three concrete
one-card classifications. -/
theorem C7_witness :
    0 < (HandRank.mk 1 [⟨Suit.spades, 1⟩]).compareTo (HandRank.mk 1 [⟨Suit.clubs, 3⟩]) :=
  C7_compareTo_total_order.2.2.1 (HandRank.mk 1 [⟨Suit.spades, 1⟩])
    (HandRank.mk 1 [⟨Suit.hearts, 2⟩]) (HandRank.mk 1 [⟨Suit.clubs, 3⟩])
    rfl rfl rfl rfl (by decide) (by decide)

/-! ### Breakability lemmas -/

theorem sum_map_nonneg (f : Nat → Int) :
    ∀ l : List Nat, (∀ x ∈ l, 0 ≤ f x) → 0 ≤ (l.map f).sum := by
  intro l
  induction l with
  | nil => intro _; simp
  | cons a l ih =>
    intro h
    simp only [List.map_cons, List.sum_cons]
    have ha := h a (by simp)
    have hl := ih (fun x hx => h x (by simp [hx]))
    omega

theorem sum_map_one_le (f : Nat → Int) :
    ∀ l : List Nat, l ≠ [] → (∀ x ∈ l, 1 ≤ f x) → 1 ≤ (l.map f).sum := by
  intro l
  cases l with
  | nil => intro h; exact absurd rfl h
  | cons a l =>
    intro _ h
    simp only [List.map_cons, List.sum_cons]
    have ha := h a (by simp)
    have hl := sum_map_nonneg f l (fun x hx => le_trans (by omega) (h x (by simp [hx])))
    omega

theorem sum_map_filter_le (f : Nat → Int) (q : Nat → Bool) :
    ∀ l : List Nat, (∀ x ∈ l, 0 ≤ f x) → ((l.filter q).map f).sum ≤ (l.map f).sum := by
  intro l
  induction l with
  | nil => intro _; simp
  | cons a l ih =>
    intro h
    have hl := ih (fun x hx => h x (by simp [hx]))
    have ha := h a (by simp)
    by_cases hq : q a
    · simp only [List.filter_cons, hq, if_true, List.map_cons, List.sum_cons]
      omega
    · simp only [List.filter_cons, hq, if_false, Bool.false_eq_true, List.map_cons, List.sum_cons]
      omega

theorem missing_ranks_ne_nil (used : List Nat) (hlen : used.length ≤ 4) :
    (List.range' 1 13).filter (fun r => decide (r ∉ used)) ≠ [] := by
  intro hempty
  have hsub : ∀ r ∈ List.range' 1 13, r ∈ used := by
    intro r hr
    by_contra hmem
    have : r ∈ (List.range' 1 13).filter (fun r => decide (r ∉ used)) :=
      List.mem_filter.2 ⟨hr, by simpa using hmem⟩
    rw [hempty] at this
    exact absurd this (List.not_mem_nil r)
  have hfinsub : (List.range' 1 13).toFinset ⊆ used.toFinset := by
    intro r hr
    exact List.mem_toFinset.2 (hsub r (List.mem_toFinset.1 hr))
  have hcard13 : (List.range' 1 13).toFinset.card = 13 := by decide
  have hcard := Finset.card_le_card hfinsub
  have hle := List.toFinset_card_le used
  omega

/-- **C8.** Breakability score of a classification: for a four-card
classification the clamp never fires, the score is exactly the sum of
`14 - r` over the ranks `r` missing from the hand, it is strictly positive
and at most 91, and `improveRanks` is exactly the missing-rank list; for any
non-four-card classification the result is the zero score with no breakable
card and no improving ranks; the score vanishes exactly on the
non-four-card classifications. -/
theorem C8_breakability_bounds (hand : List Card) (hr : HandRank) :
    (hr.type = 4 → hr.cards.length ≤ 4 →
      (calculateBreakability hand hr).score =
        (((List.range' 1 13).filter (fun r => r ∉ hr.cards.map Card.rank)).map
          (fun r : Nat => (14 : Int) - (r : Int))).sum ∧
      0 < (calculateBreakability hand hr).score ∧
      (calculateBreakability hand hr).score ≤ 91 ∧
      (calculateBreakability hand hr).improveRanks =
        (List.range' 1 13).filter (fun r => r ∉ hr.cards.map Card.rank)) ∧
    (hr.type ≠ 4 → calculateBreakability hand hr = ⟨0, none, []⟩) ∧
    (hr.cards.length ≤ 4 → ((calculateBreakability hand hr).score = 0 ↔ hr.type ≠ 4)) := by
  have key : hr.type = 4 → hr.cards.length ≤ 4 →
      (calculateBreakability hand hr).score =
        (((List.range' 1 13).filter (fun r => r ∉ hr.cards.map Card.rank)).map
          (fun r : Nat => (14 : Int) - (r : Int))).sum ∧
      0 < (calculateBreakability hand hr).score ∧
      (calculateBreakability hand hr).score ≤ 91 ∧
      (calculateBreakability hand hr).improveRanks =
        (List.range' 1 13).filter (fun r => r ∉ hr.cards.map Card.rank) := by
    intro h4 hlen
    have hnotne : ¬(hr.type ≠ 4) := by simp [h4]
    have hb : calculateBreakability hand hr =
        ⟨min 91 (max 0 ((((List.range' 1 13).filter (fun r => r ∉ hr.cards.map Card.rank)).map
            (fun r : Nat => (14 : Int) - (r : Int))).sum)),
          maxRankCard hr.cards,
          (List.range' 1 13).filter (fun r => r ∉ hr.cards.map Card.rank)⟩ := by
      unfold calculateBreakability
      rw [if_neg hnotne]
    have hone : ∀ x ∈ (List.range' 1 13).filter (fun r => r ∉ hr.cards.map Card.rank),
        1 ≤ (14 : Int) - (x : Int) := by
      intro x hx
      have hx2 := List.mem_filter.1 hx
      have := List.mem_range'_1.1 hx2.1
      omega
    have hne : (List.range' 1 13).filter (fun r => r ∉ hr.cards.map Card.rank) ≠ [] := by
      have := missing_ranks_ne_nil (hr.cards.map Card.rank) (by simpa using hlen)
      simpa using this
    have hpos := sum_map_one_le (fun r : Nat => (14 : Int) - (r : Int)) _ hne hone
    have hle91 : (((List.range' 1 13).filter (fun r => r ∉ hr.cards.map Card.rank)).map
        (fun r : Nat => (14 : Int) - (r : Int))).sum ≤ 91 := by
      have hmono := sum_map_filter_le (fun r : Nat => (14 : Int) - (r : Int))
        (fun r => decide (r ∉ hr.cards.map Card.rank)) (List.range' 1 13)
        (by
          intro x hx
          show (0 : Int) ≤ 14 - (x : Int)
          have := List.mem_range'_1.1 hx
          omega)
      have hfull : ((List.range' 1 13).map (fun r : Nat => (14 : Int) - (r : Int))).sum = 91 := by decide
      calc (((List.range' 1 13).filter (fun r => r ∉ hr.cards.map Card.rank)).map
            (fun r : Nat => (14 : Int) - (r : Int))).sum
          ≤ ((List.range' 1 13).map (fun r : Nat => (14 : Int) - (r : Int))).sum := hmono
        _ = 91 := hfull
    have clamp : ∀ S : Int, 1 ≤ S → S ≤ 91 →
        (min 91 (max 0 S) = S ∧ 0 < min 91 (max 0 S) ∧ min 91 (max 0 S) ≤ 91) := by
      intro S h1 h2
      omega
    rw [hb]
    exact ⟨(clamp _ hpos hle91).1, (clamp _ hpos hle91).2.1, (clamp _ hpos hle91).2.2, rfl⟩
  refine ⟨key, ?_, ?_⟩
  · intro hne4
    unfold calculateBreakability
    rw [if_pos hne4]
  · intro hlen
    constructor
    · intro hzero
      by_contra hne4
      have h4 : hr.type = 4 := by tauto
      have := (key h4 hlen).2.1
      omega
    · intro hne4
      unfold calculateBreakability
      rw [if_pos hne4]

/-- Witness for C8: the four-card classification A-2-3-4 has the positive
unclamped score promised by the theorem. -/
theorem C8_witness :
    0 < (calculateBreakability []
      (HandRank.mk 4 [⟨Suit.spades, 1⟩, ⟨Suit.hearts, 2⟩, ⟨Suit.diamonds, 3⟩, ⟨Suit.clubs, 4⟩])).score :=
  ((C8_breakability_bounds []
      (HandRank.mk 4 [⟨Suit.spades, 1⟩, ⟨Suit.hearts, 2⟩, ⟨Suit.diamonds, 3⟩, ⟨Suit.clubs, 4⟩])).1
    rfl (by decide)).2.1

/-! ### Subset-enumeration lemmas for the evaluator -/

theorem maskSubset_zero : ∀ cs : List Card, maskSubset cs 0 = []
  | [] => rfl
  | c :: cs => by
    simp [maskSubset, maskSubset_zero cs]

theorem maskSubset_sublist (cs : List Card) : ∀ i : Nat, List.Sublist (maskSubset cs i) cs := by
  induction cs with
  | nil => intro i; simp [maskSubset]
  | cons c cs ih =>
    intro i
    by_cases h : i % 2 = 1
    · simp only [maskSubset, h, if_true]
      exact (ih (i / 2)).cons₂ c
    · simp only [maskSubset, h, if_false]
      exact (ih (i / 2)).cons c

theorem maskSubset_ne_nil (cs : List Card) :
    ∀ i : Nat, i ≠ 0 → i < 2 ^ cs.length → maskSubset cs i ≠ [] := by
  induction cs with
  | nil =>
    intro i h0 hlt
    simp only [List.length_nil, pow_zero] at hlt
    omega
  | cons c cs ih =>
    intro i h0 hlt
    by_cases h : i % 2 = 1
    · simp [maskSubset, h]
    · simp only [maskSubset, h, if_false]
      have hpow : 2 ^ (c :: cs).length = 2 * 2 ^ cs.length := by
        rw [List.length_cons, pow_succ]
        ring
      exact ih (i / 2) (by omega) (by omega)

theorem exists_mask_of_sublist :
    ∀ {l cs : List Card}, List.Sublist l cs → ∃ i, i < 2 ^ cs.length ∧ maskSubset cs i = l := by
  intro l cs h
  induction h with
  | slnil => exact ⟨0, by simp, rfl⟩
  | @cons l' cs' c h ih =>
    obtain ⟨i, hi, hm⟩ := ih
    refine ⟨2 * i, ?_, ?_⟩
    · have hpow : 2 ^ (c :: cs').length = 2 * 2 ^ cs'.length := by
        rw [List.length_cons, pow_succ]
        ring
      omega
    · have h2 : ¬((2 * i) % 2 = 1) := by omega
      have hdiv : 2 * i / 2 = i := by omega
      simp only [maskSubset, h2, if_false, hdiv, hm]
  | @cons₂ l' cs' c h ih =>
    obtain ⟨i, hi, hm⟩ := ih
    refine ⟨2 * i + 1, ?_, ?_⟩
    · have hpow : 2 ^ (c :: cs').length = 2 * 2 ^ cs'.length := by
        rw [List.length_cons, pow_succ]
        ring
      omega
    · have h2 : (2 * i + 1) % 2 = 1 := by omega
      have hdiv : (2 * i + 1) / 2 = i := by omega
      simp only [maskSubset, h2, if_true, hdiv, hm]

theorem mem_handsubsets_iff (cs l : List Card) :
    l ∈ handsubsets cs ↔ (l ≠ [] ∧ List.Sublist l cs) := by
  have hpow : 1 ≤ 2 ^ cs.length := Nat.one_le_two_pow
  unfold handsubsets
  rw [List.mem_map]
  constructor
  · rintro ⟨i, hi, rfl⟩
    rw [List.mem_range'_1] at hi
    exact ⟨maskSubset_ne_nil cs i (by omega) (by omega), maskSubset_sublist cs i⟩
  · rintro ⟨hne, hsub⟩
    obtain ⟨i, hi, hm⟩ := exists_mask_of_sublist hsub
    refine ⟨i, ?_, hm⟩
    rw [List.mem_range'_1]
    have h0 : i ≠ 0 := by
      intro h
      subst h
      rw [maskSubset_zero] at hm
      exact hne hm.symm
    omega

/-! ### Validity characterisation -/

theorem validAux_true_iff :
    ∀ (cs : List Card) (ss : List Suit) (rs : List Nat),
      validAux cs ss rs = true ↔
        (List.Pairwise (fun a b : Card => a.suit ≠ b.suit) cs ∧
         List.Pairwise (fun a b : Card => a.rank ≠ b.rank) cs ∧
         (∀ c ∈ cs, c.suit ∉ ss) ∧ (∀ c ∈ cs, c.rank ∉ rs)) := by
  intro cs
  induction cs with
  | nil => intro ss rs; simp [validAux]
  | cons c cs ih =>
    intro ss rs
    simp only [validAux]
    by_cases hs : c.suit ∈ ss
    · rw [if_pos hs]
      simp only [Bool.false_eq_true, false_iff]
      rintro ⟨_, _, hss, _⟩
      exact hss c (List.mem_cons_self c cs) hs
    · rw [if_neg hs]
      by_cases hrk : c.rank ∈ rs
      · rw [if_pos hrk]
        simp only [Bool.false_eq_true, false_iff]
        rintro ⟨_, _, _, hrs⟩
        exact hrs c (List.mem_cons_self c cs) hrk
      · rw [if_neg hrk, ih]
        rw [List.pairwise_cons, List.pairwise_cons]
        constructor
        · rintro ⟨hps, hpr, hss, hrs⟩
          refine ⟨⟨?_, hps⟩, ⟨?_, hpr⟩, ?_, ?_⟩
          · intro b hb
            have := hss b hb
            simp only [List.mem_cons, not_or] at this
            exact fun h => this.1 h.symm
          · intro b hb
            have := hrs b hb
            simp only [List.mem_cons, not_or] at this
            exact fun h => this.1 h.symm
          · intro x hx
            rcases List.mem_cons.1 hx with rfl | hx
            · exact hs
            · have := hss x hx
              simp only [List.mem_cons, not_or] at this
              exact this.2
          · intro x hx
            rcases List.mem_cons.1 hx with rfl | hx
            · exact hrk
            · have := hrs x hx
              simp only [List.mem_cons, not_or] at this
              exact this.2
        · rintro ⟨⟨hcs, hps⟩, ⟨hcr, hpr⟩, hss, hrs⟩
          refine ⟨hps, hpr, ?_, ?_⟩
          · intro x hx
            simp only [List.mem_cons, not_or]
            exact ⟨fun h => hcs x hx h.symm, hss x (List.mem_cons_of_mem c hx)⟩
          · intro x hx
            simp only [List.mem_cons, not_or]
            exact ⟨fun h => hcr x hx h.symm, hrs x (List.mem_cons_of_mem c hx)⟩

theorem isValidBadugi_iff (cs : List Card) :
    isValidBadugi cs = true ↔
      (List.Pairwise (fun a b : Card => a.suit ≠ b.suit) cs ∧
       List.Pairwise (fun a b : Card => a.rank ≠ b.rank) cs) := by
  unfold isValidBadugi
  rw [validAux_true_iff]
  simp

/-! ### The best-subset fold -/

theorem compareTo_pos_length {a b : HandRank} (ha : a.type = a.cards.length)
    (hb : b.type = b.cards.length) (h : 0 < a.compareTo b) :
    b.cards.length ≤ a.cards.length := by
  unfold HandRank.compareTo at h
  by_cases ht : a.type = b.type
  · rw [ha, hb] at ht
    omega
  · rw [if_pos ht] at h
    omega

theorem compareTo_nonpos_length {a b : HandRank} (ha : a.type = a.cards.length)
    (hb : b.type = b.cards.length) (h : ¬0 < a.compareTo b) :
    a.cards.length ≤ b.cards.length := by
  unfold HandRank.compareTo at h
  by_cases ht : a.type = b.type
  · rw [ha, hb] at ht
    omega
  · rw [if_pos ht] at h
    omega

theorem bestLoop_cons_some (s : List Card) (rest : List (List Card)) (b : HandRank) :
    bestLoop (s :: rest) (some b) =
      if (HandRank.mk s.length s).compareTo b > 0 then bestLoop rest (some (HandRank.mk s.length s))
      else bestLoop rest (some b) := rfl

theorem bestLoop_accum :
    ∀ (l : List (List Card)) (b : HandRank), b.type = b.cards.length →
      ∃ hr, bestLoop l (some b) = some hr ∧ hr.type = hr.cards.length ∧
        (hr = b ∨ hr.cards ∈ l) ∧ b.cards.length ≤ hr.cards.length ∧
        ∀ s ∈ l, s.length ≤ hr.cards.length := by
  intro l
  induction l with
  | nil =>
    intro b hb
    exact ⟨b, rfl, hb, Or.inl rfl, le_refl _, by simp⟩
  | cons s rest ih =>
    intro b hb
    by_cases hcmp : (HandRank.mk s.length s).compareTo b > 0
    · obtain ⟨hr, heq, hwf, hmem, hle, hall⟩ := ih (HandRank.mk s.length s) rfl
      have hle' : s.length ≤ hr.cards.length := hle
      have hbs : b.cards.length ≤ s.length := compareTo_pos_length rfl hb hcmp
      refine ⟨hr, ?_, hwf, ?_, by omega, ?_⟩
      · rw [bestLoop_cons_some, if_pos hcmp]
        exact heq
      · rcases hmem with rfl | hmem
        · exact Or.inr (List.mem_cons_self s rest)
        · exact Or.inr (List.mem_cons_of_mem s hmem)
      · intro t ht
        rcases List.mem_cons.1 ht with rfl | ht
        · omega
        · exact hall t ht
    · obtain ⟨hr, heq, hwf, hmem, hle, hall⟩ := ih b hb
      have hle' : b.cards.length ≤ hr.cards.length := hle
      have hsb : s.length ≤ b.cards.length := compareTo_nonpos_length rfl hb hcmp
      refine ⟨hr, ?_, hwf, ?_, hle, ?_⟩
      · rw [bestLoop_cons_some, if_neg hcmp]
        exact heq
      · rcases hmem with rfl | hmem
        · exact Or.inl rfl
        · exact Or.inr (List.mem_cons_of_mem s hmem)
      · intro t ht
        rcases List.mem_cons.1 ht with rfl | ht
        · omega
        · exact hall t ht

theorem evaluate_spec (cards : List Card) (h : cards ≠ []) :
    (evaluate cards).cards ∈ (handsubsets cards).filter isValidBadugi ∧
    (evaluate cards).type = (evaluate cards).cards.length ∧
    ∀ s ∈ (handsubsets cards).filter isValidBadugi, s.length ≤ (evaluate cards).cards.length := by
  obtain ⟨c, cs, rfl⟩ : ∃ c cs, cards = c :: cs := by
    cases cards with
    | nil => exact absurd rfl h
    | cons c cs => exact ⟨c, cs, rfl⟩
  have hmem : [c] ∈ (handsubsets (c :: cs)).filter isValidBadugi := by
    rw [List.mem_filter]
    refine ⟨?_, ?_⟩
    · rw [mem_handsubsets_iff]
      exact ⟨by simp, (List.nil_sublist cs).cons₂ c⟩
    · simp [isValidBadugi, validAux]
  cases hvs : (handsubsets (c :: cs)).filter isValidBadugi with
  | nil =>
    rw [hvs] at hmem
    exact absurd hmem (List.not_mem_nil _)
  | cons s₀ rest =>
    obtain ⟨hr, heq, hwf, hmemhr, hle, hall⟩ := bestLoop_accum rest (HandRank.mk s₀.length s₀) rfl
    have heval : evaluate (c :: cs) = hr := by
      unfold evaluate
      rw [hvs]
      have hbl : bestLoop (s₀ :: rest) none = bestLoop rest (some (HandRank.mk s₀.length s₀)) := rfl
      rw [hbl, heq]
    rw [heval]
    have hle' : s₀.length ≤ hr.cards.length := hle
    refine ⟨?_, hwf, ?_⟩
    · rcases hmemhr with rfl | hmr
      · exact List.mem_cons_self s₀ rest
      · exact List.mem_cons_of_mem s₀ hmr
    · intro t ht
      rcases List.mem_cons.1 ht with rfl | ht
      · exact hle'
      · exact hall t ht

/-- **C6.** For every nonempty input of at most four cards, `evaluate` returns
a subset of the input cards in which no two cards share a suit and no two
share a rank, the numeric type tag equals the returned cardinality, and the
cardinality is maximal among all valid sub-multisets of the input. -/
theorem C6_evaluate_valid_maximal (cards : List Card) (hne : cards ≠ [])
    (hlen : cards.length ≤ 4) :
    List.Sublist (evaluate cards).cards cards ∧
    List.Pairwise (fun a b : Card => a.suit ≠ b.suit) (evaluate cards).cards ∧
    List.Pairwise (fun a b : Card => a.rank ≠ b.rank) (evaluate cards).cards ∧
    (evaluate cards).type = (evaluate cards).cards.length ∧
    (∀ s : List Card, List.Subperm s cards →
      List.Pairwise (fun a b : Card => a.suit ≠ b.suit) s →
      List.Pairwise (fun a b : Card => a.rank ≠ b.rank) s →
      s.length ≤ (evaluate cards).cards.length) := by
  obtain ⟨hmem, hwf, hmax⟩ := evaluate_spec cards hne
  have hfm := List.mem_filter.1 hmem
  have hsub : List.Sublist (evaluate cards).cards cards :=
    ((mem_handsubsets_iff cards (evaluate cards).cards).1 hfm.1).2
  have hvalid := (isValidBadugi_iff (evaluate cards).cards).1 hfm.2
  refine ⟨hsub, hvalid.1, hvalid.2, hwf, ?_⟩
  intro s hsp hps hpr
  cases hsnil : s with
  | nil => simp
  | cons x xs =>
    subst hsnil
    obtain ⟨t, hperm, htsub⟩ := hsp
    have htne : t ≠ [] := by
      intro hnil
      have := hperm.length_eq
      rw [hnil] at this
      simp at this
    have hts : List.Pairwise (fun a b : Card => a.suit ≠ b.suit) t :=
      (hperm.pairwise_iff (fun hab => hab.symm)).2 hps
    have htr : List.Pairwise (fun a b : Card => a.rank ≠ b.rank) t :=
      (hperm.pairwise_iff (fun hab => hab.symm)).2 hpr
    have hmemt : t ∈ (handsubsets cards).filter isValidBadugi :=
      List.mem_filter.2 ⟨(mem_handsubsets_iff cards t).2 ⟨htne, htsub⟩,
        (isValidBadugi_iff t).2 ⟨hts, htr⟩⟩
    have hlent := hmax t hmemt
    have := hperm.length_eq
    omega

/-- Witness for C6: a concrete two-card input satisfies the hypotheses and the
type tag equals the returned cardinality. -/
theorem C6_witness :
    (evaluate [⟨Suit.spades, 1⟩, ⟨Suit.hearts, 2⟩]).type =
      (evaluate [⟨Suit.spades, 1⟩, ⟨Suit.hearts, 2⟩]).cards.length :=
  (C6_evaluate_valid_maximal [⟨Suit.spades, 1⟩, ⟨Suit.hearts, 2⟩]
    (by decide) (by decide)).2.2.2.1

/-! ### Branch analysis of the decision functions -/

theorem decidePreDrawAction_raise_lt_cap {gs : GameState} {cpu : Player} {hr : HandRank}
    {pos : PositionCategory} {prof : StrategyProfile} {rnd : ℚ}
    (h : decidePreDrawAction gs cpu hr pos prof rnd = Action.Raise) :
    gs.betsInRound < 5 := by
  unfold decidePreDrawAction at h
  split at h
  · simp at h
  · split_ifs at h <;> simp_all

theorem decidePostDrawAction_raise_lt_cap {gs : GameState} {cpu : Player} {hr : HandRank}
    {pos : PositionCategory} {prof : StrategyProfile} {rnd : ℚ}
    (h : decidePostDrawAction gs cpu hr pos prof rnd = Action.Raise) :
    gs.betsInRound < 5 := by
  unfold decidePostDrawAction at h
  split_ifs at h <;> simp_all

theorem decidePostDrawAction_fold_inv {gs : GameState} {cpu : Player} {hr : HandRank}
    {pos : PositionCategory} {prof : StrategyProfile} {rnd : ℚ}
    (h : decidePostDrawAction gs cpu hr pos prof rnd = Action.Fold) :
    hr.type < 4 ∧ checkPotOdds gs cpu (estimateOuts hr) = false := by
  unfold decidePostDrawAction at h
  split_ifs at h <;> simp_all

theorem decideAction_post {gs : GameState} {rnd : ℚ} {cpu : Player}
    (hcur : gs.getCurrentPlayer? = some cpu) (hcpu : cpu.isCpu = true)
    (hph : gs.phase = 2 ∨ gs.phase = 4 ∨ gs.phase = 6) :
    decideAction gs rnd = some (decidePostDrawAction gs cpu (evaluate cpu.hand)
      (getPositionCategory gs cpu) (getStrategyProfile cpu) rnd) := by
  unfold decideAction
  rw [hcur]
  dsimp only
  rw [if_neg (by simp [hcpu])]
  rw [if_neg (by rcases hph with h | h | h <;> omega)]
  rw [if_neg (by rcases hph with h | h | h <;> omega)]

theorem decideAction_pre {gs : GameState} {rnd : ℚ} {cpu : Player}
    (hcur : gs.getCurrentPlayer? = some cpu) (hcpu : cpu.isCpu = true)
    (hph : gs.phase = 0) :
    decideAction gs rnd = some (decidePreDrawAction gs cpu (evaluate cpu.hand)
      (getPositionCategory gs cpu) (getStrategyProfile cpu) rnd) := by
  unfold decideAction
  rw [hcur]
  dsimp only
  rw [if_neg (by simp [hcpu]), if_neg (by omega), if_pos hph]

/-- **C5.** Raise-cap invariant: whenever the raise count of the round has
already reached the cap of five, `decideAction` never returns a raise — every
branch that would raise substitutes a call. -/
theorem C5_raise_cap_invariant (gs : GameState) (rnd : ℚ) (hcap : 5 ≤ gs.betsInRound) :
    decideAction gs rnd ≠ some Action.Raise := by
  intro hra
  unfold decideAction at hra
  cases hcur : gs.getCurrentPlayer? with
  | none =>
    rw [hcur] at hra
    exact Option.noConfusion hra
  | some cpu =>
    rw [hcur] at hra
    dsimp only at hra
    split_ifs at hra
    · simp at hra
    · have := decidePreDrawAction_raise_lt_cap (Option.some.inj hra)
      omega
    · have := decidePostDrawAction_raise_lt_cap (Option.some.inj hra)
      omega

/-- Witness for C5: with the cap reached in a state whose premium badugi would
otherwise raise, the engine returns a call. -/
theorem C5_witness :
    decideAction capProbeState 0 ≠ some Action.Raise ∧
    decideAction capProbeState 0 = some Action.Call :=
  ⟨C5_raise_cap_invariant capProbeState 0 (by decide), by decide⟩

/-- **C10.** In every post-draw betting state (phases `Betting2`, `Betting3`,
`Betting4`), a CPU whose hand classifies as a four-card badugi is never folded
by `decideAction`, whatever the pot, bet, raise count or opponents' draw
histories; a post-draw fold happens only for hands classifying below four
cards, and only through a failing pot-odds check. -/
theorem C10_postdraw_badugi_never_folds (gs : GameState) (rnd : ℚ) (cpu : Player)
    (hcur : gs.getCurrentPlayer? = some cpu) (hcpu : cpu.isCpu = true)
    (hph : gs.phase = 2 ∨ gs.phase = 4 ∨ gs.phase = 6) :
    ((evaluate cpu.hand).type = 4 → decideAction gs rnd ≠ some Action.Fold) ∧
    (decideAction gs rnd = some Action.Fold →
      (evaluate cpu.hand).type < 4 ∧
      checkPotOdds gs cpu (estimateOuts (evaluate cpu.hand)) = false) := by
  have hroute := @decideAction_post gs rnd cpu hcur hcpu hph
  constructor
  · intro h4 hfold
    rw [hroute] at hfold
    simp only [Option.some.injEq] at hfold
    have := (decidePostDrawAction_fold_inv hfold).1
    omega
  · intro hfold
    rw [hroute] at hfold
    simp only [Option.some.injEq] at hfold
    exact decidePostDrawAction_fold_inv hfold

/-- Witness for C10: the premium-badugi post-draw state is not folded. -/
theorem C10_witness :
    decideAction randProbeStatePost 0 ≠ some Action.Fold :=
  (C10_postdraw_badugi_never_folds randProbeStatePost 0
      (mkSeat "cpu1" "CPU 1" true premiumBadugi [0, 0, 0])
      (by decide) (by decide) (Or.inl (by decide))).1 (by decide)

/-- **C1 (bug exhibit).** The betting decision is *not* a function of the game
state alone: on the identical pre-draw state the engine raises when the
`Math.random()` sample is `0` and calls when it is `19/20`, and likewise on
the identical post-draw value-bet state.  Each pair evaluates the code on one
structurally fixed state, varying only the entropy sample. -/
theorem C1_decideAction_depends_on_random :
    decideAction randProbeState 0 = some Action.Raise ∧
    decideAction randProbeState (19/20) = some Action.Call ∧
    decideAction randProbeStatePost 0 = some Action.Raise ∧
    decideAction randProbeStatePost (19/20) = some Action.Call := by
  have hcur : randProbeState.getCurrentPlayer? = some probeCpu := by decide
  have hcur2 : randProbeStatePost.getCurrentPlayer? = some probeCpu := by decide
  have hpos : getPositionCategory randProbeState probeCpu = PositionCategory.early := by decide
  refine ⟨?_, ?_, ?_, ?_⟩
  · rw [decideAction_pre hcur (by decide) rfl, hpos]
    with_unfolding_all decide
  · rw [decideAction_pre hcur (by decide) rfl, hpos]
    with_unfolding_all decide
  · rw [decideAction_post hcur2 (by decide) (Or.inl rfl)]
    with_unfolding_all decide
  · rw [decideAction_post hcur2 (by decide) (Or.inl rfl)]
    with_unfolding_all decide

/-- **C2 (bug exhibit).** In a second-betting-round state where the acting CPU
drew no cards in the completed first draw, every live opponent drew at least
one (six live opponents), and the raise cap is not reached, the engine folds —
deterministically, for every entropy sample — instead of applying the
auto-value-bet override and raising. -/
theorem C2_auto_value_bet_missing :
    (∀ rnd : ℚ, decideAction autoBetProbeState rnd = some Action.Fold) ∧
    autoBetProbeState.betsInRound < 5 ∧
    (autoBetProbeState.players.filter
        (fun p => p.id ≠ "cpu1" ∧ !p.hasFolded)).all
      (fun p => decide (0 < p.drawHistory.headD 0)) = true ∧
    (autoBetProbeState.players.filter (fun p => p.id ≠ "cpu1" ∧ !p.hasFolded)).length = 6 := by
  have hcur : autoBetProbeState.getCurrentPlayer? = some autoBetCpu := by decide
  refine ⟨?_, by decide, by decide, by decide⟩
  intro rnd
  rw [decideAction_post hcur (by decide) (Or.inl rfl)]
  refine congrArg some ?_
  unfold decidePostDrawAction
  rw [if_neg (show ¬(shouldSnow autoBetProbeState autoBetCpu (evaluate autoBetCpu.hand)
    (getStrategyProfile autoBetCpu) = true) by decide)]
  rw [if_neg (show ¬((evaluate autoBetCpu.hand).type = 4) by decide)]
  rw [if_pos (show (evaluate autoBetCpu.hand).type < 4 by decide)]
  rw [if_neg (show ¬(checkPotOdds autoBetProbeState autoBetCpu
    (estimateOuts (evaluate autoBetCpu.hand)) = true) by with_unfolding_all decide)]

/-- **C3 (bug exhibit).** The rough queen-high badugi is flagged as a breaking
candidate by `shouldBreakBadugi` in the surrounding post-draw state, yet
`decideDiscards` — which receives only the hand and no game state — keeps all
four cards and discards nothing, rather than discarding exactly the single
highest card (the queen). -/
theorem C3_break_discard_override_missing :
    (evaluate roughBadugi).type = 4 ∧
    getHighestRank (evaluate roughBadugi) = 12 ∧
    shouldBreakBadugi breakProbeState roughSeat (evaluate roughBadugi)
      (calculateBreakability roughBadugi (evaluate roughBadugi)) = true ∧
    decideDiscards roughBadugi = [] :=
  ⟨by decide, by decide, by decide, by decide⟩

/-- **C4 (counterexample).** The monotonicity direction stated by the claim is
false on the code: a nine-high hand passes the early-position threshold check
under tightness factor `6/5 > 1` but fails it under factor `1`, and
accordingly `decidePreDrawAction` plays the nine-high badugi with the
tightness-1.2 profile while folding it with the tightness-1.0 profile. -/
theorem C4_tightness_direction_counterexample :
    passesThresholdCheck 8 (6/5) 9 = true ∧
    passesThresholdCheck 8 1 9 = false ∧
    decidePreDrawAction randProbeState roughSeat (evaluate nineHighBadugi)
      PositionCategory.early (CPU_PROFILES.getD 3 ⟨"CPU 1", 9/10, 15/100, 11/10⟩) 1 =
      Action.Call ∧
    decidePreDrawAction randProbeState roughSeat (evaluate nineHighBadugi)
      PositionCategory.early (CPU_PROFILES.getD 2 ⟨"CPU 1", 9/10, 15/100, 11/10⟩) 1 =
      Action.Fold :=
  ⟨by with_unfolding_all decide, by with_unfolding_all decide,
    by with_unfolding_all decide, by with_unfolding_all decide⟩

/-- **C4 (amended).** The adjusted threshold is
`criteria.maxHighCard × tightnessFactor` and the engine folds whenever the
hand's highest rank exceeds it; consequently the threshold check is monotone
*increasing* in the tightness factor: a larger factor (in particular one
above 1) admits every hand that a smaller factor admits, so factor values
above 1 loosen rather than tighten the requirement. -/
theorem C4_threshold_formula_and_direction :
    (∀ (gs : GameState) (cpu : Player) (hr : HandRank) (pos : PositionCategory)
        (prof : StrategyProfile) (rnd : ℚ) (criteria : OpeningCriteria),
      OPENING_RANGES pos hr.type = some criteria →
      ((getHighestRank hr : ℚ) > (criteria.maxHighCard : ℚ) * prof.tightnessFactor) →
      decidePreDrawAction gs cpu hr pos prof rnd = Action.Fold) ∧
    (∀ (maxHighCard : Nat) (t t' : ℚ) (highCard : Nat), t ≤ t' →
      passesThresholdCheck maxHighCard t highCard = true →
      passesThresholdCheck maxHighCard t' highCard = true) := by
  constructor
  · intro gs cpu hr pos prof rnd criteria hcr hgt
    unfold decidePreDrawAction
    rw [hcr]
    dsimp only
    have hfail : passesThresholdCheck criteria.maxHighCard prof.tightnessFactor
        (getHighestRank hr) = false := by
      unfold passesThresholdCheck
      simp [hgt]
    rw [if_pos (by rw [hfail]; rfl)]
  · intro m t t' hc htt hpass
    unfold passesThresholdCheck at hpass ⊢
    simp only [Bool.not_eq_true', decide_eq_false_iff_not, not_lt] at hpass ⊢
    calc (hc : ℚ) ≤ (m : ℚ) * t := hpass
      _ ≤ (m : ℚ) * t' := mul_le_mul_of_nonneg_left htt (by positivity)

/-- Witness for C4 (amended): a king-high badugi exceeds the early-position
threshold `8 × 1` and is folded. -/
theorem C4_witness :
    decidePreDrawAction randProbeState roughSeat (evaluate kingHighBadugi)
      PositionCategory.early (CPU_PROFILES.getD 2 ⟨"CPU 1", 9/10, 15/100, 11/10⟩) 0 =
      Action.Fold :=
  C4_threshold_formula_and_direction.1 randProbeState roughSeat (evaluate kingHighBadugi)
    PositionCategory.early (CPU_PROFILES.getD 2 ⟨"CPU 1", 9/10, 15/100, 11/10⟩) 0
    ⟨8, false, BaselineAction.raise⟩ (by decide) (by with_unfolding_all decide)

/-- **C9 (counterexample).** The position formula of the claim reduces the
offset modulo the active-player count; the code reduces it modulo the total
seat count.  With seven seats, three of them folded, the acting seat 4 is
`late` for the code while the claim's formula makes it `early`. -/
theorem C9_position_modulus_counterexample :
    getPositionCategory foldedTableState foldedTableActor = PositionCategory.late ∧
    specPositionCategory 4 0 4 = PositionCategory.early ∧
    jsIndexOf foldedTableState.players foldedTableActor = 4 ∧
    foldedTableState.dealerIndex = 0 ∧
    (foldedTableState.players.filter isActivePlayer).length = 4 :=
  ⟨by decide, by decide, by decide, by decide, by decide⟩

/-- **C9 (amended).** `getPositionCategory` computes
`relative = (seatIndex − dealerIndex + totalSeatCount) mod totalSeatCount`
(JS truncated remainder), with the early bound `⌈n/3⌉` and the late bound
`⌊2n/3⌋` taken from the active-player count `n` (players neither folded nor
busted-without-all-in); and for every `n ≥ 2` the bounds satisfy
`⌈n/3⌉ ≤ ⌊2n/3⌋ ≤ n`, so the offsets `[0, n)` are partitioned: each offset
falls in exactly one of early (`r < ⌈n/3⌉`), middle
(`⌈n/3⌉ ≤ r < ⌊2n/3⌋`) and late (`⌊2n/3⌋ ≤ r`). -/
theorem C9_position_amended :
    (∀ (gs : GameState) (p : Player),
      getPositionCategory gs p = codePositionCategory (jsIndexOf gs.players p) gs.dealerIndex
        gs.players.length (gs.players.filter isActivePlayer).length) ∧
    (∀ n : Nat, 2 ≤ n → ((n + 2) / 3 ≤ n * 2 / 3 ∧ n * 2 / 3 ≤ n)) ∧
    (∀ n r : Nat, 2 ≤ n → r < n →
      (codePositionCategory r 0 n n = PositionCategory.early ↔ r < (n + 2) / 3) ∧
      (codePositionCategory r 0 n n = PositionCategory.middle ↔
        ((n + 2) / 3 ≤ r ∧ r < n * 2 / 3)) ∧
      (codePositionCategory r 0 n n = PositionCategory.late ↔ n * 2 / 3 ≤ r)) := by
  refine ⟨fun gs p => rfl, fun n hn => ⟨by omega, by omega⟩, ?_⟩
  intro n r hn hr
  have hel : (n + 2) / 3 ≤ n * 2 / 3 := by omega
  have hrel : ((r : Int) - 0 + (n : Int)).tmod n = (r : Int) := by
    have h1 : ((r : Int) - 0 + (n : Int)) = (r : Int) + (n : Int) * 1 := by ring
    rw [h1, Int.tmod_eq_emod (by positivity) (by positivity), Int.add_mul_emod_self_left,
      Int.emod_eq_of_lt (by positivity) (by exact_mod_cast hr)]
  have hform : codePositionCategory r 0 n n =
      (if r < (n + 2) / 3 then PositionCategory.early
       else if n * 2 / 3 ≤ r then PositionCategory.late
       else PositionCategory.middle) := by
    unfold codePositionCategory
    rw [hrel]
    simp only [ge_iff_le, Nat.cast_lt, Nat.cast_le]
  rw [hform]
  by_cases hE : r < (n + 2) / 3
  · rw [if_pos hE]
    exact ⟨⟨fun _ => hE, fun _ => rfl⟩,
      ⟨fun h => absurd h (by decide), fun h => absurd h.1 (by omega)⟩,
      ⟨fun h => absurd h (by decide), fun h => absurd hE (by omega)⟩⟩
  · by_cases hL : n * 2 / 3 ≤ r
    · rw [if_neg hE, if_pos hL]
      exact ⟨⟨fun h => absurd h (by decide), fun h => absurd h hE⟩,
        ⟨fun h => absurd h (by decide), fun h => absurd h.2 (by omega)⟩,
        ⟨fun _ => hL, fun _ => rfl⟩⟩
    · rw [if_neg hE, if_neg hL]
      exact ⟨⟨fun h => absurd h (by decide), fun h => absurd h hE⟩,
        ⟨fun _ => ⟨by omega, by omega⟩, fun _ => rfl⟩,
        ⟨fun h => absurd h (by decide), fun h => absurd h hL⟩⟩

/-- Witness for C9 (amended): the refinement equation evaluated on the
folded-table state, and the partition instantiated at `n = 7`, `r = 3`
(a middle offset). -/
theorem C9_witness :
    getPositionCategory foldedTableState foldedTableActor =
      codePositionCategory (jsIndexOf foldedTableState.players foldedTableActor)
        foldedTableState.dealerIndex foldedTableState.players.length
        ((foldedTableState.players.filter isActivePlayer).length) ∧
    (codePositionCategory 3 0 7 7 = PositionCategory.middle ↔
      ((7 + 2) / 3 ≤ 3 ∧ 3 < 7 * 2 / 3)) :=
  ⟨C9_position_amended.1 foldedTableState foldedTableActor,
    (C9_position_amended.2.2 7 3 (by decide) (by decide)).2.1⟩

end PjBadugi
